import Mathlib

/-!
Verification of the PromptPack template / validation core.

The definitions below are a shallow embedding of the TypeScript sources:
  - src/src/template.ts   : PromptPackTemplateEngine (render, substituteFragments,
                            substituteVariables, validateVariables and its helpers)
  - src/unnamed/part_003  : validators (validateResponse, runValidator, the four
                            built-in validators, allValidatorsPassed, ...)
  - src/unnamed/part_006  : ValidationRunnable (constructor reconciliation,
                            runValidation dispatch, invoke)

Modelling conventions: Lean String / List Char stand for JS strings; JS
exceptions become Except; JS objects used as string-keyed maps become
functions into Option; numeric length/token parameters are the nonnegative
integers the schema intends.  Regular-expression compilation and testing
for the regex_match validator and for variable pattern constraints is kept
abstract (an oracle parameter), since the claims under study never depend
on concrete regex semantics; the banned-words matcher, whose semantics the
claims do exercise, is modelled concretely for phrases built from word
characters, mirroring the word-boundary pattern the source compiles.
-/

namespace PromptPack

/-- The opening brace character of the default placeholder syntax. -/
def lbrace : Char := Char.ofNat 123

/-- The closing brace character of the default placeholder syntax. -/
def rbrace : Char := Char.ofNat 125

/-- First character of an identifier in the placeholder pattern:
the regex class [a-zA-Z_] from getSyntaxPattern in template.ts. -/
def isIdentStart (c : Char) : Bool := c.isAlpha || c = '_'

/-- Subsequent identifier characters: the regex class [a-zA-Z0-9_]. -/
def isIdentChar (c : Char) : Bool := c.isAlpha || c.isDigit || c = '_'

/-- Attempt to match the default placeholder pattern at the head of the text.
Models one match attempt of the compiled pattern from getSyntaxPattern
(template.ts) for the default engine syntax: two opening braces, an
identifier ([a-zA-Z_][a-zA-Z0-9_]*), two closing braces.  Returns the
captured name and the text after the match. -/
def matchPlaceholder : List Char → Option (String × List Char)
  | a :: b :: c :: cs =>
    if a = lbrace && b = lbrace && isIdentStart c then
      match cs.dropWhile isIdentChar with
      | d :: e :: rest =>
        if d = rbrace && e = rbrace then
          some (String.mk (c :: cs.takeWhile isIdentChar), rest)
        else none
      | _ => none
    else none
  | _ => none

/-- One global-replace pass over the text: the
result.replace(pattern, callback) call inside substituteFragments
(template.ts).  Scans left to right; a matched placeholder whose name is
bound in the fragment map is replaced by the fragment body (and the
replaced flag is set), a matched placeholder with an unbound name is kept
verbatim, and replacement text is not rescanned within the same pass.
Returns the new text and whether any replacement happened (hasMore). -/
def replacePass (frags : String → Option String) : List Char → List Char × Bool
  | [] => ([], false)
  | c :: cs =>
    match h : matchPlaceholder (c :: cs) with
    | some (name, rest) =>
      match frags name with
      | some repl =>
        (repl.data ++ (replacePass frags rest).1, true)
      | none =>
        (lbrace :: lbrace :: (name.data ++ rbrace :: rbrace :: (replacePass frags rest).1),
         (replacePass frags rest).2)
    | none => (c :: (replacePass frags cs).1, (replacePass frags cs).2)
termination_by l => l.length
decreasing_by
  all_goals first
    | (rcases cs with _ | ⟨b, cs2⟩
       · simp [matchPlaceholder] at h
       rcases cs2 with _ | ⟨c2, cs3⟩
       · simp [matchPlaceholder] at h
       simp only [matchPlaceholder] at h
       split at h
       · split at h
         · split at h
           · simp only [Option.some.injEq, Prod.mk.injEq] at h
             obtain ⟨-, hr⟩ := h
             subst hr
             rename_i d e rest2 hdrop _
             have hsub : (cs3.dropWhile isIdentChar).length ≤ cs3.length :=
               List.Sublist.length_le (List.dropWhile_sublist isIdentChar)
             rw [hdrop] at hsub
             simp only [List.length_cons] at hsub ⊢
             omega
           · exact absurd h (by simp)
         · exact absurd h (by simp)
       · exact absurd h (by simp))
    | simp

/-- The hard-coded pass cap of substituteFragments (template.ts, maxDepth). -/
def maxDepth : Nat := 10

/-- The message of the TemplateError thrown when the pass cap is reached. -/
def depthErrorMsg : String :=
  "Maximum fragment substitution depth exceeded (possible circular reference)"

/-- The while loop of substituteFragments, fuelled by the number of passes
still allowed (maxDepth minus the current depth).  Returns the final text
together with the number of passes executed, which equals the depth counter
of the source when its loop exits: the loop body always runs at least once
per unit of fuel while the previous pass replaced something, and stops
after the first pass that made no replacement. -/
def fragGo (frags : String → Option String) : Nat → List Char → List Char × Nat
  | 0, s => (s, 0)
  | fuel + 1, s =>
    if (replacePass frags s).2 then
      ((fragGo frags fuel (replacePass frags s).1).1,
       (fragGo frags fuel (replacePass frags s).1).2 + 1)
    else ((replacePass frags s).1, 1)

/-- substituteFragments (template.ts): run replacement passes until a pass
makes no replacement or the pass cap is reached, then fail with the
depth/cycle TemplateError when the depth counter reached the cap. -/
def substituteFragments (frags : String → Option String) (template : String) :
    Except String String :=
  if maxDepth ≤ (fragGo frags maxDepth template.data).2 then
    Except.error depthErrorMsg
  else Except.ok (String.mk (fragGo frags maxDepth template.data).1)

/-- substituteVariables (template.ts): one replace pass over the text where
a matched placeholder is replaced by the value bound to its name.  The
variable map is given after value-to-string conversion (valueToString in
the source), which the claims under study never exercise.  An unbound
name is left verbatim when allowUndefined holds and otherwise raises the
TemplateError naming the placeholder. -/
def substituteVariables (vars : String → Option String) (allowUndefined : Bool) :
    List Char → Except String (List Char)
  | [] => Except.ok []
  | c :: cs =>
    match h : matchPlaceholder (c :: cs) with
    | some (name, rest) =>
      match vars name with
      | some value =>
        match substituteVariables vars allowUndefined rest with
        | Except.ok tail => Except.ok (value.data ++ tail)
        | Except.error e => Except.error e
      | none =>
        if allowUndefined then
          match substituteVariables vars allowUndefined rest with
          | Except.ok tail =>
            Except.ok (lbrace :: lbrace :: (name.data ++ rbrace :: rbrace :: tail))
          | Except.error e => Except.error e
        else Except.error ("Variable \x27" ++ name ++ "\x27 is not defined")
    | none =>
      match substituteVariables vars allowUndefined cs with
      | Except.ok tail => Except.ok (c :: tail)
      | Except.error e => Except.error e
termination_by l => l.length
decreasing_by
  all_goals first
    | (rcases cs with _ | ⟨b, cs2⟩
       · simp [matchPlaceholder] at h
       rcases cs2 with _ | ⟨c2, cs3⟩
       · simp [matchPlaceholder] at h
       simp only [matchPlaceholder] at h
       split at h
       · split at h
         · split at h
           · simp only [Option.some.injEq, Prod.mk.injEq] at h
             obtain ⟨-, hr⟩ := h
             subst hr
             rename_i d e rest2 hdrop _
             have hsub : (cs3.dropWhile isIdentChar).length ≤ cs3.length :=
               List.Sublist.length_le (List.dropWhile_sublist isIdentChar)
             rw [hdrop] at hsub
             simp only [List.length_cons] at hsub ⊢
             omega
           · exact absurd h (by simp)
         · exact absurd h (by simp)
       · exact absurd h (by simp))
    | simp

/-- render (template.ts): fragment phase first, then variable phase. -/
def render (frags vars : String → Option String) (allowUndefined : Bool)
    (template : String) : Except String String :=
  match substituteFragments frags template with
  | Except.error e => Except.error e
  | Except.ok afterFrags =>
    match substituteVariables vars allowUndefined afterFrags.data with
    | Except.ok out => Except.ok (String.mk out)
    | Except.error e => Except.error e

/-- Whether the placeholder pattern matches anywhere in the text. -/
def containsPlaceholder : List Char → Bool
  | [] => false
  | c :: cs => (matchPlaceholder (c :: cs)).isSome || containsPlaceholder cs

/-- The literal text of a placeholder for a given name. -/
def placeholderText (name : String) : List Char :=
  lbrace :: lbrace :: (name.data ++ [rbrace, rbrace])

/-- A name the identifier capture group of the placeholder pattern can
produce: a nonempty word starting with [a-zA-Z_] and continuing with
[a-zA-Z0-9_]. -/
def validIdent (name : String) : Prop :=
  ∃ c cs, name.data = c :: cs ∧ isIdentStart c = true ∧ cs.all isIdentChar = true

/-- One list occurs inside another (a contiguous infix occurrence). -/
def occursIn (pat s : List Char) : Prop := ∃ l r, s = l ++ pat ++ r

/-- The text after k replacement passes, starting from s. -/
def passResult (frags : String → Option String) (s : List Char) : Nat → List Char
  | 0 => s
  | k + 1 => (replacePass frags (passResult frags s k)).1

/-! ## Variable validation (template.ts, validateVariables and helpers) -/

/-- A JavaScript value as seen by the variable validator. -/
inductive JSValue where
  | str : String → JSValue
  | num : Int → JSValue
  | bool : Bool → JSValue
  | null : JSValue
  | arr : List JSValue → JSValue
  | obj : List (String × JSValue) → JSValue

/-- JS strict equality (===) as used by Array.includes in the enum check:
primitives compare by value; two observed object or array values compare
by reference, so distinct literals are never equal (no modelled scenario
aliases an object). -/
def jsEq : JSValue → JSValue → Bool
  | JSValue.str a, JSValue.str b => a == b
  | JSValue.num a, JSValue.num b => a == b
  | JSValue.bool a, JSValue.bool b => a == b
  | JSValue.null, JSValue.null => true
  | _, _ => false

/-- Whether the value is the JS null literal. -/
def isJsNull : JSValue → Bool
  | JSValue.null => true
  | _ => false

/-- JS typeof for the modelled values (typeof null and typeof of arrays and
objects are all the string object). -/
def typeofStr : JSValue → String
  | JSValue.str _ => "string"
  | JSValue.num _ => "number"
  | JSValue.bool _ => "boolean"
  | JSValue.null => "object"
  | JSValue.arr _ => "object"
  | JSValue.obj _ => "object"

/-- Array.isArray. -/
def isJsArray : JSValue → Bool
  | JSValue.arr _ => true
  | _ => false

/-- Array.prototype.join with a given separator, as used for error
messages (each element already converted to a string). -/
def joinWith (sep : String) : List String → String
  | [] => ""
  | [x] => x
  | x :: xs => x ++ sep ++ joinWith sep xs

/-- JS String(value) conversion, used only inside the enum error message
(simplified stringification: nested nulls in arrays print as null). -/
def jsToString : JSValue → String
  | JSValue.str s => s
  | JSValue.num n => toString n
  | JSValue.bool b => cond b "true" "false"
  | JSValue.null => "null"
  | JSValue.obj _ => "[object Object]"
  | JSValue.arr xs =>
    joinWith "," (xs.attach.map (fun ⟨x, hx⟩ =>
      have : sizeOf x < 1 + sizeOf xs := Nat.lt_add_left 1 (List.sizeOf_lt_of_mem hx)
      jsToString x))

/-- Variable validation rules (types.ts, VariableValidation). -/
structure VariableValidation where
  pattern : Option String := none
  min_length : Option Nat := none
  max_length : Option Nat := none
  minimum : Option Int := none
  maximum : Option Int := none
  enum : Option (List JSValue) := none

/-- Variable descriptor (types.ts, Variable).  description and example are
omitted: no modelled function reads them. -/
structure Variable where
  name : String
  type : String
  required : Bool
  default : Option JSValue := none
  validation : Option VariableValidation := none

/-- validateType (template.ts): type-check a value against the declared
type string.  A declared type outside the known five falls through the
switch without error, as in the source. -/
def validateType (name : String) (value : JSValue) (expectedType : String) :
    Except String Unit :=
  if expectedType = "string" then
    if !(typeofStr value == "string") then
      Except.error ("Variable \x27" ++ name ++ "\x27 must be a string, got " ++ typeofStr value)
    else Except.ok ()
  else if expectedType = "number" then
    if !(typeofStr value == "number") then
      Except.error ("Variable \x27" ++ name ++ "\x27 must be a number, got " ++ typeofStr value)
    else Except.ok ()
  else if expectedType = "boolean" then
    if !(typeofStr value == "boolean") then
      Except.error ("Variable \x27" ++ name ++ "\x27 must be a boolean, got " ++ typeofStr value)
    else Except.ok ()
  else if expectedType = "object" then
    if !(typeofStr value == "object") || isJsNull value || isJsArray value then
      Except.error ("Variable \x27" ++ name ++ "\x27 must be an object, got " ++ typeofStr value)
    else Except.ok ()
  else if expectedType = "array" then
    if !(isJsArray value) then
      Except.error ("Variable \x27" ++ name ++ "\x27 must be an array, got " ++ typeofStr value)
    else Except.ok ()
  else Except.ok ()

/-- validateStringRules (template.ts).  rxTest abstracts
new RegExp(pattern).test(value); a falsy (absent or empty) pattern skips
the pattern check, as the truthiness test in the source does. -/
def validateStringRules (rxTest : String → String → Bool) (name value : String)
    (validation : VariableValidation) : Except String Unit :=
  match validation.pattern with
  | some p =>
    if p != "" && !(rxTest p value) then
      Except.error ("Variable \x27" ++ name ++ "\x27 does not match pattern " ++ p)
    else validateStringLengthRules name value validation
  | none => validateStringLengthRules name value validation
where
  validateStringLengthRules (name value : String) (validation : VariableValidation) :
      Except String Unit :=
    match validation.min_length with
    | some m =>
      if value.length < m then
        Except.error ("Variable \x27" ++ name ++ "\x27 must be at least " ++ toString m ++
          " characters, got " ++ toString value.length)
      else
        match validation.max_length with
        | some mx =>
          if value.length > mx then
            Except.error ("Variable \x27" ++ name ++ "\x27 must be at most " ++ toString mx ++
              " characters, got " ++ toString value.length)
          else Except.ok ()
        | none => Except.ok ()
    | none =>
      match validation.max_length with
      | some mx =>
        if value.length > mx then
          Except.error ("Variable \x27" ++ name ++ "\x27 must be at most " ++ toString mx ++
            " characters, got " ++ toString value.length)
        else Except.ok ()
      | none => Except.ok ()

/-- validateNumberRules (template.ts). -/
def validateNumberRules (name : String) (value : Int)
    (validation : VariableValidation) : Except String Unit :=
  match validation.minimum with
  | some m =>
    if value < m then
      Except.error ("Variable \x27" ++ name ++ "\x27 must be at least " ++ toString m ++
        ", got " ++ toString value)
    else
      match validation.maximum with
      | some mx =>
        if value > mx then
          Except.error ("Variable \x27" ++ name ++ "\x27 must be at most " ++ toString mx ++
            ", got " ++ toString value)
        else Except.ok ()
      | none => Except.ok ()
  | none =>
    match validation.maximum with
    | some mx =>
      if value > mx then
        Except.error ("Variable \x27" ++ name ++ "\x27 must be at most " ++ toString mx ++
          ", got " ++ toString value)
      else Except.ok ()
    | none => Except.ok ()

/-- validateEnumRule (template.ts). -/
def validateEnumRule (name : String) (value : JSValue) (enumValues : List JSValue) :
    Except String Unit :=
  if enumValues.any (fun e => jsEq e value) then Except.ok ()
  else
    Except.error ("Variable \x27" ++ name ++ "\x27 must be one of: " ++
      joinWith ", " (enumValues.map jsToString))

/-- validateRules (template.ts): string rules, then number rules, then the
enum rule, stopping at the first failure. -/
def validateRules (rxTest : String → String → Bool) (name : String) (value : JSValue)
    (validation : VariableValidation) (type : String) : Except String Unit := do
  (if type = "string" then
    match value with
    | JSValue.str s => validateStringRules rxTest name s validation
    | _ => Except.ok ()
  else Except.ok ())
  (if type = "number" then
    match value with
    | JSValue.num n => validateNumberRules name n validation
    | _ => Except.ok ()
  else Except.ok ())
  (match validation.enum with
  | some evs => validateEnumRule name value evs
  | none => Except.ok ())

/-- The body of the per-variable loop iteration of validateVariables
(template.ts): required check, then type check, then constraint rules,
each raising immediately on failure. -/
def checkVariable (rxTest : String → String → Bool) (values : String → Option JSValue)
    (d : Variable) : Except String Unit :=
  match values d.name with
  | none =>
    if d.required then
      Except.error ("Required variable \x27" ++ d.name ++ "\x27 is missing")
    else Except.ok ()
  | some v => do
    validateType d.name v d.type
    (match d.validation with
    | some rules => validateRules rxTest d.name v rules d.type
    | none => Except.ok ())

/-- validateVariables (template.ts): iterate the declared variables in
order, raising at the first failing check. -/
def validateVariables (rxTest : String → String → Bool) (defs : List Variable)
    (values : String → Option JSValue) : Except String Unit :=
  match defs with
  | [] => Except.ok ()
  | d :: rest => do
    checkVariable rxTest values d
    validateVariables rxTest rest values

/-! ## Validators (src/unnamed/part_003) -/

/-- The list of built-in validator type tags (OOTB_VALIDATORS). -/
def OOTB_VALIDATORS : List String :=
  ["banned_words", "max_length", "min_length", "regex_match"]

/-- isOOTBValidator. -/
def isOOTBValidator (type : String) : Bool := OOTB_VALIDATORS.contains type

/-- The validator parameter bag (params), with the keys the built-in
validators read. -/
structure Params where
  words : Option (List String) := none
  max_characters : Option Nat := none
  max_tokens : Option Nat := none
  min_characters : Option Nat := none
  min_tokens : Option Nat := none
  pattern : Option String := none
  must_match : Option Bool := none
deriving DecidableEq

/-- Validator descriptor (types.ts, Validator); the type tag is an open
string; an absent fail_on_violation is falsy, hence false. -/
structure Validator where
  type : String
  enabled : Bool
  fail_on_violation : Bool := false
  params : Params := {}
deriving DecidableEq

/-- Structured details attached to validation results. -/
inductive Details where
  | bannedWords : List String → Details
  | maxChars : Nat → Nat → Details
  | maxTokens : Nat → Nat → Details
  | minChars : Nat → Nat → Details
  | minTokens : Nat → Nat → Details
  | patternDetail : String → Details
  | regexError : String → Details
  | custom : String → Details
deriving DecidableEq

/-- ValidationResult. -/
structure ValidationResult where
  passed : Bool
  validatorType : String
  message : Option String := none
  details : Option Details := none
deriving DecidableEq

/-- The data of a GuardrailViolationError. -/
structure GuardrailError where
  message : String
  validatorType : String
  details : Option Details := none
deriving DecidableEq

/-- JS (message || fallback) where the fallback is the literal
Validation failed: absent and empty messages are both falsy. -/
def jsOr : Option String → String
  | some m => if m = "" then "Validation failed" else m
  | none => "Validation failed"

/-- The GuardrailViolationError built when a fail_on_violation validator
fails in validateResponse. -/
def mkGuardErr (v : Validator) (r : ValidationResult) : GuardrailError :=
  { message := jsOr r.message, validatorType := v.type, details := r.details }

/-- Abstract regular-expression engine for the regex_match validator:
whether a pattern compiles, the compiled test, and the stringified
compile error. -/
structure RegexOracle where
  valid : String → Bool
  test : String → String → Bool
  errMsg : String → String

/-- JS word character (the regex class matched by backslash-w): ASCII
letter, digit or underscore. -/
def isWordChar (c : Char) : Bool := c.isAlpha || c.isDigit || c = '_'

/-- Word-char-ness of an optional character; absent characters (text
boundaries) count as non-word. -/
def optWordChar : Option Char → Bool
  | some c => isWordChar c
  | none => false

/-- A word boundary sits between two positions of differing word-char-ness. -/
def boundaryB (a b : Option Char) : Bool := optWordChar a != optWordChar b

/-- Consume the phrase case-insensitively and check the trailing word
boundary; lastc is the character just before the current position. -/
def icMatchEnd : List Char → List Char → Option Char → Bool
  | [], rest, lastc => boundaryB lastc rest.head?
  | _ :: _, [], _ => false
  | c :: cs, d :: ds, _ => (c.toLower = d.toLower) && icMatchEnd cs ds (some d)

/-- Test the word-boundary pattern at the current position (prev is the
character before it). -/
def wordTestAt (w s : List Char) (prev : Option Char) : Bool :=
  boundaryB prev s.head? && icMatchEnd w s prev

/-- Scan every position of the text for a word-boundary match of w. -/
def wordSearch (w : List Char) : List Char → Option Char → Bool
  | [], prev => wordTestAt w [] prev
  | c :: cs, prev => wordTestAt w (c :: cs) prev || wordSearch w cs (some c)

/-- The test of the case-insensitive word-boundary regex the source builds
for a banned phrase, for phrases free of regex metacharacters. -/
def bannedTest (w response : String) : Bool := wordSearch w.data response.data none

/-- validateBannedWords. -/
def validateBannedWords (response : String) (v : Validator) : ValidationResult :=
  let words := v.params.words.getD []
  let foundWords := words.filter (fun w => bannedTest w response)
  if foundWords.length > 0 then
    { passed := false, validatorType := "banned_words",
      message := some ("Response contains banned words: " ++ joinWith ", " foundWords),
      details := some (Details.bannedWords foundWords) }
  else { passed := true, validatorType := "banned_words" }

/-- Math.ceil(length / 4), the token estimate of the length validators. -/
def estimatedTokens (len : Nat) : Nat := (len + 3) / 4

/-- The token-bound half of validateMaxLength, reached only when the
character bound did not already fail. -/
def maxTokensCheck (len : Nat) (v : Validator) : ValidationResult :=
  match v.params.max_tokens with
  | some maxTokens =>
    if estimatedTokens len > maxTokens then
      { passed := false, validatorType := "max_length",
        message := some ("Response exceeds maximum tokens: ~" ++ toString (estimatedTokens len) ++
          " > " ++ toString maxTokens ++ " tokens"),
        details := some (Details.maxTokens (estimatedTokens len) maxTokens) }
    else { passed := true, validatorType := "max_length" }
  | none => { passed := true, validatorType := "max_length" }

/-- validateMaxLength: the character bound is checked first, then the
token bound. -/
def validateMaxLength (response : String) (v : Validator) : ValidationResult :=
  match v.params.max_characters with
  | some maxChars =>
    if response.length > maxChars then
      { passed := false, validatorType := "max_length",
        message := some ("Response exceeds maximum length: " ++ toString response.length ++
          " > " ++ toString maxChars ++ " characters"),
        details := some (Details.maxChars response.length maxChars) }
    else maxTokensCheck response.length v
  | none => maxTokensCheck response.length v

/-- The token-bound half of validateMinLength. -/
def minTokensCheck (len : Nat) (v : Validator) : ValidationResult :=
  match v.params.min_tokens with
  | some minTokens =>
    if estimatedTokens len < minTokens then
      { passed := false, validatorType := "min_length",
        message := some ("Response below minimum tokens: ~" ++ toString (estimatedTokens len) ++
          " < " ++ toString minTokens ++ " tokens"),
        details := some (Details.minTokens (estimatedTokens len) minTokens) }
    else { passed := true, validatorType := "min_length" }
  | none => { passed := true, validatorType := "min_length" }

/-- validateMinLength. -/
def validateMinLength (response : String) (v : Validator) : ValidationResult :=
  match v.params.min_characters with
  | some minChars =>
    if response.length < minChars then
      { passed := false, validatorType := "min_length",
        message := some ("Response below minimum length: " ++ toString response.length ++
          " < " ++ toString minChars ++ " characters"),
        details := some (Details.minChars response.length minChars) }
    else minTokensCheck response.length v
  | none => minTokensCheck response.length v

/-- validateRegexMatch, over the abstract regex oracle.  A falsy (absent or
empty) pattern passes with the no-pattern message; a non-compiling pattern
yields a failing result rather than an exception. -/
def validateRegexMatch (rx : RegexOracle) (response : String) (v : Validator) :
    ValidationResult :=
  let mustMatch := !(v.params.must_match == some false)
  match v.params.pattern with
  | none => { passed := true, validatorType := "regex_match",
              message := some ("No pattern specified") }
  | some p =>
    if p = "" then
      { passed := true, validatorType := "regex_match",
        message := some ("No pattern specified") }
    else if rx.valid p = false then
      { passed := false, validatorType := "regex_match",
        message := some ("Invalid regex pattern: " ++ p),
        details := some (Details.regexError (rx.errMsg p)) }
    else if mustMatch && !(rx.test p response) then
      { passed := false, validatorType := "regex_match",
        message := some ("Response does not match required pattern: " ++ p),
        details := some (Details.patternDetail p) }
    else if !mustMatch && rx.test p response then
      { passed := false, validatorType := "regex_match",
        message := some ("Response matches forbidden pattern: " ++ p),
        details := some (Details.patternDetail p) }
    else { passed := true, validatorType := "regex_match" }

/-- runValidator: dispatch on the type tag; unknown types produce a passing
result carrying only the unknown-type message. -/
def runValidator (rx : RegexOracle) (response : String) (v : Validator) :
    ValidationResult :=
  if v.type = "banned_words" then validateBannedWords response v
  else if v.type = "max_length" then validateMaxLength response v
  else if v.type = "min_length" then validateMinLength response v
  else if v.type = "regex_match" then validateRegexMatch rx response v
  else
    { passed := true, validatorType := v.type,
      message := some ("Unknown validator type: " ++ v.type) }

/-- validateResponse, the direct batch path: skip disabled validators, run
each enabled one in declared order, and throw GuardrailViolationError as
soon as a failing result belongs to a fail_on_violation validator. -/
def validateResponse (rx : RegexOracle) (response : String) :
    List Validator → Except GuardrailError (List ValidationResult)
  | [] => Except.ok []
  | v :: rest =>
    if v.enabled then
      let r := runValidator rx response v
      if !r.passed && v.fail_on_violation then
        Except.error (mkGuardErr v r)
      else
        match validateResponse rx response rest with
        | Except.ok rs => Except.ok (r :: rs)
        | Except.error e => Except.error e
    else validateResponse rx response rest

/-- allValidatorsPassed. -/
def allValidatorsPassed (results : List ValidationResult) : Bool :=
  results.all (fun r => r.passed)

/-- getFailedValidators. -/
def getFailedValidators (results : List ValidationResult) : List ValidationResult :=
  results.filter (fun r => !r.passed)

/-! ## ValidationRunnable (src/unnamed/part_006) -/

/-- CustomValidatorFn. -/
def CustomFn : Type := String → Validator → ValidationResult

/-- The missing list built by validateValidatorImplementations: the types
of enabled, non-built-in validators with no custom implementation, in
declaration order. -/
def missingValidatorTypes (customs : String → Option CustomFn)
    (validators : List Validator) : List String :=
  (validators.filter
    (fun v => v.enabled && !isOOTBValidator v.type && (customs v.type).isNone)).map
    (fun v => v.type)

/-- The single construction error message listing every missing type. -/
def missingMsg (missing : List String) : String :=
  "Missing validator implementations: " ++ joinWith ", " missing ++
    ". These validators are required by the PromptPack but no implementation was provided."

/-- validateValidatorImplementations, run by the ValidationRunnable
constructor. -/
def validateValidatorImplementations (customs : String → Option CustomFn)
    (validators : List Validator) : Except String Unit :=
  if missingValidatorTypes customs validators = [] then Except.ok ()
  else Except.error (missingMsg (missingValidatorTypes customs validators))

/-- Fallback for indexing the first element of the per-validator
validateResponse result (the JS [0]); unreachable for enabled validators,
whose singleton call always returns one result. -/
def headFallback (v : Validator) : ValidationResult :=
  { passed := true, validatorType := v.type }

/-- The per-descriptor dispatch inside runValidation (part_006): a
registered custom implementation is invoked, otherwise the validator runs
through validateResponse on a singleton list, whose throw propagates. -/
def dispatchValidator (rx : RegexOracle) (customs : String → Option CustomFn)
    (content : String) (v : Validator) : Except GuardrailError ValidationResult :=
  match customs v.type with
  | some f => Except.ok (f content v)
  | none =>
    match validateResponse rx content [v] with
    | Except.ok rs => Except.ok (rs.headD (headFallback v))
    | Except.error e => Except.error e

/-- runValidation: one result per enabled validator, in declared order. -/
def runValidation (rx : RegexOracle) (customs : String → Option CustomFn)
    (content : String) : List Validator → Except GuardrailError (List ValidationResult)
  | [] => Except.ok []
  | v :: rest =>
    if v.enabled then
      match dispatchValidator rx customs content v with
      | Except.error e => Except.error e
      | Except.ok r =>
        match runValidation rx customs content rest with
        | Except.ok rs => Except.ok (r :: rs)
        | Except.error e => Except.error e
    else runValidation rx customs content rest

/-- The validation field of the ValidatedOutput the runnable returns. -/
structure ValidationReport where
  passed : Bool
  results : List ValidationResult
  failed : List ValidationResult
deriving DecidableEq

/-- ValidationRunnable.invoke on already-extracted string content: run all
validators, aggregate, and in throw-mode raise the first failing outcome
whose type tag resolves (via find on the validator list) to a
fail_on_violation validator. -/
def invoke (rx : RegexOracle) (customs : String → Option CustomFn)
    (validators : List Validator) (throwOnFailure : Bool) (content : String) :
    Except GuardrailError ValidationReport :=
  match runValidation rx customs content validators with
  | Except.error e => Except.error e
  | Except.ok results =>
    let passed := allValidatorsPassed results
    let failed := getFailedValidators results
    if !passed && throwOnFailure then
      match failed.filter (fun r =>
          ((validators.find? (fun v => v.type = r.validatorType)).map
            (fun v => v.fail_on_violation)).getD false) with
      | first :: _ =>
        Except.error { message := jsOr first.message,
                       validatorType := first.validatorType,
                       details := first.details }
      | [] => Except.ok { passed := passed, results := results, failed := failed }
    else Except.ok { passed := passed, results := results, failed := failed }

/-! ## Concrete fixtures used by witnesses -/

/-- A trivial regex oracle (none of the witnessed scenarios use regex
validators). -/
def trivialRx : RegexOracle :=
  { valid := fun _ => true, test := fun _ _ => false, errMsg := fun _ => "" }

/-- An empty custom-implementation map. -/
def noCustoms : String → Option CustomFn := fun _ => none

/-- An empty string map. -/
def emptyMap : String → Option String := fun _ => none

/-- Fragment map binding a to the literal X. -/
def fragsA : String → Option String :=
  fun n => if n = "a" then some ("X") else none

/-- Fragment map where fragment a includes itself directly. -/
def fragsCyc : String → Option String :=
  fun n => if n = "a" then some ("\x7b\x7ba\x7d\x7d") else none

/-- A banned_words validator with no configured words: always passes. -/
def vOkBanned : Validator :=
  { type := "banned_words", enabled := true, fail_on_violation := true,
    params := { words := some [] } }

/-- A max_length validator with character bound 0 and fail_on_violation:
fails on any nonempty response. -/
def failingMax0 : Validator :=
  { type := "max_length", enabled := true, fail_on_violation := true,
    params := { max_characters := some 0 } }

/-- A min_length validator with no bounds: always passes. -/
def vOkMin : Validator :=
  { type := "min_length", enabled := true, fail_on_violation := true }

/-- The banned-phrase guardrail of the concrete scenario. -/
def bannedBadEvil : Validator :=
  { type := "banned_words", enabled := true,
    params := { words := some ["bad", "evil"] } }

/-- The maximum-length guardrail of the concrete scenario. -/
def maxLen10 : Validator :=
  { type := "max_length", enabled := true,
    params := { max_characters := some 10 } }

/-- An enabled validator with a non-built-in type tag. -/
def unknownTypeV : Validator := { type := "json_schema", enabled := true }

/-- Enabled non-built-in validators alpha and beta. -/
def alphaV : Validator := { type := "alpha", enabled := true }

def betaV : Validator := { type := "beta", enabled := true }

/-- A custom-implementation map containing only alpha. -/
def customsAlpha : String → Option CustomFn :=
  fun t => if t = "alpha" then some (fun _ _ => { passed := true, validatorType := "alpha" }) else none

/-- A custom implementation function for the max_length tag. -/
def customMaxFn : CustomFn :=
  fun _ _ => { passed := true, validatorType := "max_length", message := some ("custom") }

/-- A custom-implementation map registering customMaxFn for the built-in
max_length tag. -/
def customsMax : String → Option CustomFn :=
  fun t => if t = "max_length" then some customMaxFn else none

/-- A regex test oracle that accepts everything. -/
def rxTrue : String → String → Bool := fun _ _ => true

/-- The two declared variables of the fail-fast scenario: the first
required (and missing), the second of number type. -/
def varA : Variable := { name := "a", type := "string", required := true }

def varB : Variable := { name := "b", type := "number", required := true }

/-- A value map binding only b, to a string (an invalid type for b). -/
def valuesOnlyB : String → Option JSValue :=
  fun n => if n = "b" then some (JSValue.str "x") else none

/-! ## Equation lemmas for the well-founded replace-pass definitions -/

theorem replacePass_nil (frags : String → Option String) :
    replacePass frags [] = ([], false) := by
  simp [replacePass]

theorem replacePass_cons_mapped {c : Char} {cs rest : List Char} {n : String}
    (frags : String → Option String) {repl : String}
    (hm : matchPlaceholder (c :: cs) = some (n, rest)) (hf : frags n = some repl) :
    replacePass frags (c :: cs) = (repl.data ++ (replacePass frags rest).1, true) := by
  rw [replacePass]
  split
  · rename_i name rest2 h
    rw [hm] at h
    injection h with h
    injection h with h1 h2
    subst h1; subst h2
    rw [hf]
  · rename_i h
    rw [hm] at h
    exact absurd h (by simp)

theorem replacePass_cons_unmapped {c : Char} {cs rest : List Char} {n : String}
    (frags : String → Option String)
    (hm : matchPlaceholder (c :: cs) = some (n, rest)) (hf : frags n = none) :
    replacePass frags (c :: cs) =
      (lbrace :: lbrace :: (n.data ++ rbrace :: rbrace :: (replacePass frags rest).1),
       (replacePass frags rest).2) := by
  rw [replacePass]
  split
  · rename_i name rest2 h
    rw [hm] at h
    injection h with h
    injection h with h1 h2
    subst h1; subst h2
    rw [hf]
  · rename_i h
    rw [hm] at h
    exact absurd h (by simp)

theorem replacePass_cons_nomatch {c : Char} {cs : List Char}
    (frags : String → Option String)
    (hm : matchPlaceholder (c :: cs) = none) :
    replacePass frags (c :: cs) = (c :: (replacePass frags cs).1, (replacePass frags cs).2) := by
  rw [replacePass]
  split
  · rename_i name rest2 h
    rw [hm] at h
    exact absurd h (by simp)
  · rfl

theorem substituteVariables_nil (vars : String → Option String) (b : Bool) :
    substituteVariables vars b [] = Except.ok [] := by
  simp [substituteVariables]

theorem substituteVariables_cons_nomatch {c : Char} {cs : List Char}
    (vars : String → Option String) (b : Bool)
    (hm : matchPlaceholder (c :: cs) = none) :
    substituteVariables vars b (c :: cs)
      = match substituteVariables vars b cs with
        | Except.ok tail => Except.ok (c :: tail)
        | Except.error e => Except.error e := by
  rw [substituteVariables]
  split
  · rename_i name rest2 h
    rw [hm] at h
    exact absurd h (by simp)
  · rfl

/-! ## The direct batch path: validateResponse (claims C6, C10) -/

theorem validateResponse_ok_of_no_critical (rx : RegexOracle) (response : String) :
    ∀ vs : List Validator,
      (∀ v ∈ vs, v.enabled = true → (runValidator rx response v).passed = false →
        v.fail_on_violation = false) →
      validateResponse rx response vs
        = Except.ok ((vs.filter (fun v => v.enabled)).map (runValidator rx response)) := by
  intro vs
  induction vs with
  | nil => intro _; simp [validateResponse]
  | cons v rest ih =>
    intro hno
    have hrest : ∀ u ∈ rest, u.enabled = true → (runValidator rx response u).passed = false →
        u.fail_on_violation = false := by
      intro u hu
      exact hno u (List.mem_cons_of_mem v hu)
    by_cases hv : v.enabled = true
    · have hcrit : (!(runValidator rx response v).passed && v.fail_on_violation) = false := by
        cases hp : (runValidator rx response v).passed
        · have := hno v (List.mem_cons_self v rest) hv hp
          simp [this]
        · simp
      simp only [validateResponse, hv, if_true, hcrit, Bool.false_eq_true, if_false]
      rw [ih hrest]
      simp [List.filter_cons, hv]
    · have hv2 : v.enabled = false := by
        cases he : v.enabled
        · rfl
        · exact absurd he hv
      simp only [validateResponse, hv2, Bool.false_eq_true, if_false]
      rw [ih hrest]
      simp [List.filter_cons, hv2]

theorem validateResponse_error_at_first_critical (rx : RegexOracle) (response : String)
    (v : Validator) (post : List Validator) (hv : v.enabled = true)
    (hfail : (runValidator rx response v).passed = false)
    (hflag : v.fail_on_violation = true) :
    ∀ pre : List Validator,
      (∀ u ∈ pre, u.enabled = true →
        ((runValidator rx response u).passed = true ∨ u.fail_on_violation = false)) →
      validateResponse rx response (pre ++ v :: post)
        = Except.error (mkGuardErr v (runValidator rx response v)) := by
  intro pre
  induction pre with
  | nil =>
    intro _
    simp only [List.nil_append, validateResponse, hv, if_true, hfail, hflag]
    simp
  | cons u pre ih =>
    intro hok
    have hpre : ∀ w ∈ pre, w.enabled = true →
        ((runValidator rx response w).passed = true ∨ w.fail_on_violation = false) := by
      intro w hw
      exact hok w (List.mem_cons_of_mem u hw)
    by_cases hue : u.enabled = true
    · have hcrit : (!(runValidator rx response u).passed && u.fail_on_violation) = false := by
        rcases hok u (List.mem_cons_self u pre) hue with hp | hf
        · simp [hp]
        · simp [hf]
      simp only [List.cons_append, validateResponse, hue, if_true, hcrit,
        Bool.false_eq_true, if_false, List.append_eq]
      rw [ih hpre]
    · have hue2 : u.enabled = false := by
        cases he : u.enabled
        · rfl
        · exact absurd he hue
      simp only [List.cons_append, validateResponse, hue2, Bool.false_eq_true, if_false,
        List.append_eq]
      exact ih hpre

/-- C6: the direct batch evaluation path (validateResponse, without the
ValidationRunnable wrapper) throws on the first enabled validator whose
outcome fails with fail_on_violation set, regardless of what is declared
after it; and with no such critical failure it returns exactly one outcome
per enabled validator, in declaration order. -/
theorem validateResponse_direct_shortcircuit (rx : RegexOracle) (response : String) :
    (∀ (pre : List Validator) (v : Validator) (post : List Validator),
      (∀ u ∈ pre, u.enabled = true →
        ((runValidator rx response u).passed = true ∨ u.fail_on_violation = false)) →
      v.enabled = true → (runValidator rx response v).passed = false →
      v.fail_on_violation = true →
      validateResponse rx response (pre ++ v :: post)
        = Except.error (mkGuardErr v (runValidator rx response v)))
    ∧ (∀ vs : List Validator,
      (∀ v ∈ vs, v.enabled = true → (runValidator rx response v).passed = false →
        v.fail_on_violation = false) →
      validateResponse rx response vs
        = Except.ok ((vs.filter (fun v => v.enabled)).map (runValidator rx response))) := by
  constructor
  · intro pre v post hok hv hfail hflag
    exact validateResponse_error_at_first_critical rx response v post hv hfail hflag pre hok
  · exact validateResponse_ok_of_no_critical rx response

/-- Witness for C6: with a passing guardrail declared first, the critical
max-length failure on the middle guardrail raises the guardrail violation
and the trailing guardrail is irrelevant. -/
theorem validateResponse_direct_shortcircuit_witness :
    validateResponse trivialRx ("x") [vOkBanned, failingMax0, vOkMin]
      = Except.error { message := "Response exceeds maximum length: 1 > 0 characters",
                       validatorType := "max_length",
                       details := some (Details.maxChars 1 0) } := by
  exact (validateResponse_direct_shortcircuit trivialRx ("x")).1
    [vOkBanned] failingMax0 [vOkMin] (by decide) (by decide) (by decide) (by decide)

/-! ## Built-in validator semantics (claims C7, C8, C10) -/

theorem filter_banned_iff (response : String) (words : List String) :
    ((words.filter (fun w => bannedTest w response)).length > 0 ↔
      ∃ w ∈ words, bannedTest w response = true) := by
  simp only [gt_iff_lt, List.length_pos]
  constructor
  · intro hne
    by_contra hno
    push_neg at hno
    apply hne
    rw [List.filter_eq_nil]
    intro a ha
    simp [hno a ha]
  · rintro ⟨w, hw, hb⟩ hnil
    have := List.filter_eq_nil.mp hnil w hw
    simp [hb] at this

/-- C7: the banned-phrase validator fails exactly when some configured
phrase has a case-insensitive word-boundary match in the response, and the
failing outcome reports the matching phrases in their configured casing
(the filtered sublist of the configured word list itself).  The phrases
are assumed to be plain nonempty words (no regex metacharacters), which is
the regime in which the word-boundary regex the source compiles denotes
this matcher. -/
theorem validateBannedWords_spec (response : String) (v : Validator) (words : List String)
    (hw : v.params.words = some words)
    (hplain : ∀ w ∈ words, w.data ≠ [] ∧ w.data.all isWordChar = true) :
    ((validateBannedWords response v).passed = false ↔
      ∃ w ∈ words, bannedTest w response = true)
    ∧ ((∃ w ∈ words, bannedTest w response = true) →
      validateBannedWords response v
        = { passed := false, validatorType := "banned_words",
            message := some ("Response contains banned words: " ++
              joinWith ", " (words.filter (fun w => bannedTest w response))),
            details := some (Details.bannedWords
              (words.filter (fun w => bannedTest w response))) }) := by
  have hiff := filter_banned_iff response words
  constructor
  · unfold validateBannedWords
    rw [hw]
    simp only [Option.getD_some]
    by_cases hpos : (words.filter (fun w => bannedTest w response)).length > 0
    · rw [if_pos hpos]
      constructor
      · intro _
        exact hiff.mp hpos
      · intro _
        rfl
    · rw [if_neg hpos]
      constructor
      · intro hcontra
        simp at hcontra
      · intro hex
        exact absurd (hiff.mpr hex) hpos
  · intro hex
    unfold validateBannedWords
    rw [hw]
    simp only [Option.getD_some]
    rw [if_pos (hiff.mpr hex)]

/-- Witness for C7: phrases bad and evil against the text This is BAD
fail, and the reported phrase is the configured lowercase bad. -/
theorem validateBannedWords_spec_witness :
    (validateBannedWords ("This is BAD") bannedBadEvil).passed = false
    ∧ validateBannedWords ("This is BAD") bannedBadEvil
        = { passed := false, validatorType := "banned_words",
            message := some ("Response contains banned words: bad"),
            details := some (Details.bannedWords ["bad"]) } := by
  have h := validateBannedWords_spec ("This is BAD") bannedBadEvil ["bad", "evil"]
    (by decide) (by decide)
  refine ⟨h.1.mpr ?_, ?_⟩
  · exact ⟨"bad", by decide, by decide⟩
  · have h2 := h.2 ⟨"bad", by decide, by decide⟩
    rw [h2]
    decide

/-- C8: the maximum-length validator evaluates the character bound before
the token bound.  An exceeded character bound fails with the character
details regardless of the token bound; only otherwise does the token
estimate (character count divided by four, rounded up) get checked against
the token bound; and when neither bound is exceeded it passes. -/
theorem validateMaxLength_spec (response : String) (v : Validator) :
    (∀ m, v.params.max_characters = some m → response.length > m →
      validateMaxLength response v
        = { passed := false, validatorType := "max_length",
            message := some ("Response exceeds maximum length: " ++
              toString response.length ++ " > " ++ toString m ++ " characters"),
            details := some (Details.maxChars response.length m) })
    ∧ (∀ m, v.params.max_characters = some m → ¬(response.length > m) →
        validateMaxLength response v = maxTokensCheck response.length v)
    ∧ (v.params.max_characters = none →
        validateMaxLength response v = maxTokensCheck response.length v)
    ∧ (∀ t, v.params.max_tokens = some t → estimatedTokens response.length > t →
        maxTokensCheck response.length v
          = { passed := false, validatorType := "max_length",
              message := some ("Response exceeds maximum tokens: ~" ++
                toString (estimatedTokens response.length) ++ " > " ++ toString t ++ " tokens"),
              details := some (Details.maxTokens (estimatedTokens response.length) t) })
    ∧ (∀ t, v.params.max_tokens = some t → ¬(estimatedTokens response.length > t) →
        maxTokensCheck response.length v = { passed := true, validatorType := "max_length" })
    ∧ (v.params.max_tokens = none →
        maxTokensCheck response.length v = { passed := true, validatorType := "max_length" }) := by
  refine ⟨?_, ?_, ?_, ?_, ?_, ?_⟩
  · intro m hm hgt
    simp only [validateMaxLength, hm]
    rw [if_pos hgt]
  · intro m hm hle
    simp only [validateMaxLength, hm]
    rw [if_neg hle]
  · intro hm
    simp only [validateMaxLength, hm]
  · intro t ht hgt
    simp only [maxTokensCheck, ht]
    rw [if_pos hgt]
  · intro t ht hle
    simp only [maxTokensCheck, ht]
    rw [if_neg hle]
  · intro ht
    simp only [maxTokensCheck, ht]

/-- Witness for C8: max_characters ten with an eleven-character response
fails with details carrying length eleven and bound ten. -/
theorem validateMaxLength_spec_witness :
    validateMaxLength ("12345678901") maxLen10
      = { passed := false, validatorType := "max_length",
          message := some ("Response exceeds maximum length: 11 > 10 characters"),
          details := some (Details.maxChars 11 10) } := by
  have h := (validateMaxLength_spec ("12345678901") maxLen10).1 10 (by decide) (by decide)
  rw [h]
  decide

/-- C10: in the direct path, runValidator maps every validator whose type
tag is not built-in to a passing outcome carrying only the unknown-type
message, so a list of enabled unknown-type validators yields a successful
report whose outcomes all pass and can never throw. -/
theorem unknown_type_validators_pass (rx : RegexOracle) (response : String) :
    (∀ v : Validator, isOOTBValidator v.type = false →
      runValidator rx response v
        = { passed := true, validatorType := v.type,
            message := some ("Unknown validator type: " ++ v.type) })
    ∧ (∀ vs : List Validator, (∀ v ∈ vs, isOOTBValidator v.type = false) →
      validateResponse rx response vs
        = Except.ok ((vs.filter (fun v => v.enabled)).map (runValidator rx response))
      ∧ ∀ r ∈ (vs.filter (fun v => v.enabled)).map (runValidator rx response),
          r.passed = true) := by
  have hrun : ∀ v : Validator, isOOTBValidator v.type = false →
      runValidator rx response v
        = { passed := true, validatorType := v.type,
            message := some ("Unknown validator type: " ++ v.type) } := by
    intro v hv
    have h1 : ¬ v.type = "banned_words" := by
      intro he; rw [he] at hv; exact absurd hv (by decide)
    have h2 : ¬ v.type = "max_length" := by
      intro he; rw [he] at hv; exact absurd hv (by decide)
    have h3 : ¬ v.type = "min_length" := by
      intro he; rw [he] at hv; exact absurd hv (by decide)
    have h4 : ¬ v.type = "regex_match" := by
      intro he; rw [he] at hv; exact absurd hv (by decide)
    unfold runValidator
    rw [if_neg h1, if_neg h2, if_neg h3, if_neg h4]
  refine ⟨hrun, ?_⟩
  intro vs hvs
  constructor
  · apply validateResponse_ok_of_no_critical
    intro v hv hen hfail
    rw [hrun v (hvs v hv)] at hfail
    simp at hfail
  · intro r hr
    rw [List.mem_map] at hr
    obtain ⟨v, hv, hrv⟩ := hr
    rw [List.mem_filter] at hv
    rw [← hrv, hrun v (hvs v hv.1)]

/-- Witness for C10: an enabled json_schema validator (not a built-in
type) passes with the unknown-type message and the batch returns ok. -/
theorem unknown_type_validators_pass_witness :
    runValidator trivialRx ("anything") unknownTypeV
      = { passed := true, validatorType := "json_schema",
          message := some ("Unknown validator type: json_schema") }
    ∧ validateResponse trivialRx ("anything") [unknownTypeV]
        = Except.ok [{ passed := true, validatorType := "json_schema",
                       message := some ("Unknown validator type: json_schema") }] := by
  constructor
  · exact (unknown_type_validators_pass trivialRx ("anything")).1 unknownTypeV (by decide)
  · have h := ((unknown_type_validators_pass trivialRx ("anything")).2 [unknownTypeV]
      (by decide)).1
    rw [h]
    rfl

/-! ## Reconciliation at construction (claim C3) -/

theorem occursIn_joinWith {t : String} {l : List String} (sep : String) (ht : t ∈ l) :
    occursIn t.data (joinWith sep l).data := by
  induction l with
  | nil => cases ht
  | cons x xs ih =>
    rcases List.mem_cons.mp ht with he | hm
    · subst he
      cases xs with
      | nil => exact ⟨[], [], by simp [joinWith]⟩
      | cons y ys =>
        refine ⟨[], (sep ++ joinWith sep (y :: ys)).data, ?_⟩
        simp [joinWith, String.data_append]
    · cases xs with
      | nil => cases hm
      | cons y ys =>
        obtain ⟨a, b, hab⟩ := ih hm
        refine ⟨(x ++ sep).data ++ a, b, ?_⟩
        simp [joinWith, String.data_append, hab]

theorem occursIn_missingMsg {t : String} {missing : List String} (ht : t ∈ missing) :
    occursIn t.data (missingMsg missing).data := by
  obtain ⟨a, b, hab⟩ := occursIn_joinWith ", " ht
  refine ⟨("Missing validator implementations: ").data ++ a,
    b ++ (". These validators are required by the PromptPack but no implementation was provided.").data,
    ?_⟩
  simp [missingMsg, String.data_append, hab]

theorem missingTypes_nil_iff (customs : String → Option CustomFn)
    (validators : List Validator) :
    missingValidatorTypes customs validators = [] ↔
      ∀ v ∈ validators, v.enabled = true → isOOTBValidator v.type = false →
        (customs v.type).isSome = true := by
  unfold missingValidatorTypes
  rw [List.map_eq_nil_iff, List.filter_eq_nil_iff]
  constructor
  · intro h v hv hen hnb
    have hc := h v hv
    simp only [hen, hnb, Bool.not_false, Bool.and_eq_true, Bool.true_and,
      Bool.not_eq_true] at hc
    cases ho : customs v.type
    · rw [ho] at hc; simp at hc
    · simp
  · intro h v hv hcond
    simp only [Bool.and_eq_true, Bool.not_eq_true'] at hcond
    obtain ⟨⟨hen, hnb⟩, hnone⟩ := hcond
    have hs := h v hv hen hnb
    cases ho : customs v.type
    · rw [ho] at hs; simp at hs
    · rw [ho] at hnone; simp at hnone

/-- C3: ValidationRunnable construction succeeds exactly when every
enabled descriptor with a non-built-in type has an entry in the supplied
custom-implementation map (disabled descriptors are skipped entirely);
otherwise the single construction error is built from the complete list
of missing types and its text contains every missing type name. -/
theorem validateValidatorImplementations_spec (customs : String → Option CustomFn)
    (validators : List Validator) :
    (validateValidatorImplementations customs validators = Except.ok () ↔
      ∀ v ∈ validators, v.enabled = true → isOOTBValidator v.type = false →
        (customs v.type).isSome = true)
    ∧ (missingValidatorTypes customs validators ≠ [] →
      validateValidatorImplementations customs validators
        = Except.error (missingMsg (missingValidatorTypes customs validators)))
    ∧ (∀ t ∈ missingValidatorTypes customs validators,
      occursIn t.data (missingMsg (missingValidatorTypes customs validators)).data) := by
  refine ⟨?_, ?_, ?_⟩
  · rw [← missingTypes_nil_iff customs validators]
    unfold validateValidatorImplementations
    by_cases hm : missingValidatorTypes customs validators = []
    · rw [if_pos hm]
      simp [hm]
    · rw [if_neg hm]
      simp [hm]
  · intro hm
    unfold validateValidatorImplementations
    rw [if_neg hm]
  · intro t ht
    exact occursIn_missingMsg ht

/-- Witness for C3: enabled non-built-in types alpha and beta with only
alpha implemented fail construction, and the error text contains beta. -/
theorem validateValidatorImplementations_spec_witness :
    validateValidatorImplementations customsAlpha [alphaV, betaV]
      = Except.error (missingMsg ["beta"])
    ∧ occursIn ("beta").data (missingMsg ["beta"]).data := by
  have h := validateValidatorImplementations_spec customsAlpha [alphaV, betaV]
  have hm : missingValidatorTypes customsAlpha [alphaV, betaV] = ["beta"] := by decide
  constructor
  · have h2 := h.2.1 (by rw [hm]; decide)
    rw [hm] at h2
    exact h2
  · have h3 := h.2.2 "beta" (by rw [hm]; decide)
    rw [hm] at h3
    exact h3

/-! ## The wrapped pipeline dispatch (claims C5, C2) -/

theorem validateResponse_singleton (rx : RegexOracle) (content : String) (v : Validator)
    (hv : v.enabled = true) :
    validateResponse rx content [v]
      = (if !(runValidator rx content v).passed && v.fail_on_violation then
          Except.error (mkGuardErr v (runValidator rx content v))
        else Except.ok [runValidator rx content v]) := by
  simp only [validateResponse, hv, if_true]

/-- C5: in the per-descriptor dispatch of runValidation, a registered
custom implementation for the descriptor type is always what produces
the outcome, even for built-in type tags (the hypothesis on the type tag
is unrestricted), and the built-in evaluator runs exactly when no custom
implementation is registered for the type. -/
theorem custom_precedence_dispatch (rx : RegexOracle) (content : String) (v : Validator)
    (hv : v.enabled = true) :
    (∀ (customs : String → Option CustomFn) (f : CustomFn), customs v.type = some f →
      dispatchValidator rx customs content v = Except.ok (f content v)
      ∧ ∀ rest, runValidation rx customs content (v :: rest)
          = (match runValidation rx customs content rest with
             | Except.ok rs => Except.ok (f content v :: rs)
             | Except.error e => Except.error e))
    ∧ (∀ customs : String → Option CustomFn, customs v.type = none →
      dispatchValidator rx customs content v
        = (if !(runValidator rx content v).passed && v.fail_on_violation then
            Except.error (mkGuardErr v (runValidator rx content v))
          else Except.ok (runValidator rx content v))) := by
  constructor
  · intro customs f hc
    have hd : dispatchValidator rx customs content v = Except.ok (f content v) := by
      unfold dispatchValidator
      rw [hc]
    refine ⟨hd, ?_⟩
    intro rest
    simp only [runValidation, hv, if_true, hd]
  · intro customs hc
    unfold dispatchValidator
    rw [hc, validateResponse_singleton rx content v hv]
    by_cases hcrit : (!(runValidator rx content v).passed && v.fail_on_violation) = true
    · rw [if_pos hcrit, if_pos hcrit]
    · rw [if_neg hcrit, if_neg hcrit]
      rfl

/-- Witness for C5: the registered custom implementation for max_length
(a built-in type) produces the outcome even though the built-in evaluator
would have failed; without a registration the built-in evaluator runs
(and here throws). -/
theorem custom_precedence_dispatch_witness :
    dispatchValidator trivialRx customsMax ("x") failingMax0
      = Except.ok { passed := true, validatorType := "max_length",
                    message := some ("custom") }
    ∧ dispatchValidator trivialRx noCustoms ("x") failingMax0
      = Except.error { message := "Response exceeds maximum length: 1 > 0 characters",
                       validatorType := "max_length",
                       details := some (Details.maxChars 1 0) } := by
  constructor
  · exact ((custom_precedence_dispatch trivialRx ("x") failingMax0 (by decide)).1
      customsMax customMaxFn rfl).1
  · have h := (custom_precedence_dispatch trivialRx ("x") failingMax0 (by decide)).2
      noCustoms rfl
    rw [h]
    rfl

/-- C2, the observed divergence: on a single enabled built-in max_length
validator with fail_on_violation set and an exceeded bound, the wrapped
pipeline raises the guardrail violation even though throwOnFailure is
false, because runValidation evaluates built-ins through validateResponse,
which throws on its own.  The claimed behavior (never raising when
throwOnFailure is false, computing the entire outcome set first) does not
hold on this input. -/
theorem invoke_raises_in_report_mode :
    invoke trivialRx noCustoms [failingMax0] false ("x")
      = Except.error { message := "Response exceeds maximum length: 1 > 0 characters",
                       validatorType := "max_length",
                       details := some (Details.maxChars 1 0) } := by
  rfl

/-! ## Variable validation is fail-fast (claim C4) -/

theorem occursIn_append3 (a t b : String) : occursIn t.data (a ++ t ++ b).data :=
  ⟨a.data, b.data, by simp [String.data_append]⟩

theorem occursIn_str_concat {t s : String} (h : occursIn t.data s.data) (b : String) :
    occursIn t.data (s ++ b).data := by
  obtain ⟨l, r, hr⟩ := h
  exact ⟨l, r ++ b.data, by simp [String.data_append, hr]⟩

theorem occursIn_append4 (a t b1 b2 : String) :
    occursIn t.data (a ++ t ++ b1 ++ b2).data :=
  occursIn_str_concat (occursIn_append3 a t b1) b2

theorem occursIn_append6 (a t b1 b2 b3 b4 : String) :
    occursIn t.data (a ++ t ++ b1 ++ b2 ++ b3 ++ b4).data :=
  occursIn_str_concat (occursIn_str_concat (occursIn_append4 a t b1 b2) b3) b4

theorem validateType_error_names {name : String} {v : JSValue} {ty e : String}
    (h : validateType name v ty = Except.error e) : occursIn name.data e.data := by
  unfold validateType at h
  repeat' split at h
  all_goals
    first
      | (simp at h; done)
      | (simp only [Except.error.injEq] at h
         subst h
         first
           | exact occursIn_append3 _ _ _
           | exact occursIn_append4 _ _ _ _
           | exact occursIn_append6 _ _ _ _ _ _)

theorem validateStringLengthRules_error_names {name value e2 : String}
    {validation : VariableValidation}
    (h2 : validateStringRules.validateStringLengthRules name value validation
      = Except.error e2) :
    occursIn name.data e2.data := by
  unfold validateStringRules.validateStringLengthRules at h2
  repeat' split at h2
  all_goals
    first
      | (simp at h2; done)
      | (simp only [Except.error.injEq] at h2
         subst h2
         first
           | exact occursIn_append3 _ _ _
           | exact occursIn_append4 _ _ _ _
           | exact occursIn_append6 _ _ _ _ _ _)

theorem validateStringRules_error_names {rxTest : String → String → Bool}
    {name value e : String} {validation : VariableValidation}
    (h : validateStringRules rxTest name value validation = Except.error e) :
    occursIn name.data e.data := by
  unfold validateStringRules at h
  split at h
  · split_ifs at h
    · simp only [Except.error.injEq] at h
      subst h
      exact occursIn_append4 _ _ _ _
    · exact validateStringLengthRules_error_names h
  · exact validateStringLengthRules_error_names h

theorem validateNumberRules_error_names {name e : String} {value : Int}
    {validation : VariableValidation}
    (h : validateNumberRules name value validation = Except.error e) :
    occursIn name.data e.data := by
  unfold validateNumberRules at h
  repeat' split at h
  all_goals
    first
      | (simp at h; done)
      | (simp only [Except.error.injEq] at h
         subst h
         first
           | exact occursIn_append3 _ _ _
           | exact occursIn_append4 _ _ _ _
           | exact occursIn_append6 _ _ _ _ _ _)

theorem validateEnumRule_error_names {name e : String} {value : JSValue}
    {evs : List JSValue} (h : validateEnumRule name value evs = Except.error e) :
    occursIn name.data e.data := by
  unfold validateEnumRule at h
  split_ifs at h
  simp only [Except.error.injEq] at h
  subst h
  exact occursIn_append4 _ _ _ _

theorem except_bind_error_elim {e : String} {A : Except String Unit}
    {f : Unit → Except String Unit} (h : (A >>= f) = Except.error e) :
    A = Except.error e ∨ (A = Except.ok () ∧ f () = Except.error e) := by
  cases A with
  | error e1 =>
    left
    have : (Except.error e1 >>= f) = (Except.error e1 : Except String Unit) := rfl
    rw [this] at h
    exact h
  | ok u =>
    right
    cases u
    have : (Except.ok () >>= f) = f () := rfl
    rw [this] at h
    exact ⟨rfl, h⟩

theorem validateRules_error_names {rxTest : String → String → Bool} {name e : String}
    {value : JSValue} {validation : VariableValidation} {ty : String}
    (h : validateRules rxTest name value validation ty = Except.error e) :
    occursIn name.data e.data := by
  unfold validateRules at h
  rcases except_bind_error_elim h with h1 | ⟨-, h23⟩
  · split at h1
    · split at h1
      all_goals first
        | exact absurd h1 (by simp)
        | exact validateStringRules_error_names h1
    · exact absurd h1 (by simp)
  · rcases except_bind_error_elim h23 with h2 | ⟨-, h3⟩
    · split at h2
      · split at h2
        all_goals first
          | exact absurd h2 (by simp)
          | exact validateNumberRules_error_names h2
      · exact absurd h2 (by simp)
    · split at h3
      · exact validateEnumRule_error_names h3
      · exact absurd h3 (by simp)

theorem checkVariable_error_names (rxTest : String → String → Bool)
    (values : String → Option JSValue) (d : Variable) {e : String}
    (h : checkVariable rxTest values d = Except.error e) :
    occursIn d.name.data e.data := by
  unfold checkVariable at h
  split at h
  · split_ifs at h
    simp only [Except.error.injEq] at h
    subst h
    exact occursIn_append3 _ _ _
  · rcases except_bind_error_elim h with h1 | ⟨-, h2⟩
    · exact validateType_error_names h1
    · split at h2
      · exact validateRules_error_names h2
      · exact absurd h2 (by simp)

theorem validateVariables_error_of_first (rxTest : String → String → Bool)
    (d : Variable) (post : List Variable) (values : String → Option JSValue)
    (e : String) (hd : checkVariable rxTest values d = Except.error e) :
    ∀ pre : List Variable,
      (∀ u ∈ pre, checkVariable rxTest values u = Except.ok ()) →
      validateVariables rxTest (pre ++ d :: post) values = Except.error e := by
  intro pre
  induction pre with
  | nil =>
    intro _
    simp only [List.nil_append]
    unfold validateVariables
    rw [hd]
    rfl
  | cons u pre ih =>
    intro hok
    have hu := hok u (List.mem_cons_self u pre)
    simp only [List.cons_append]
    unfold validateVariables
    rw [hu]
    have : (Except.ok () >>= fun _ =>
        validateVariables rxTest (pre ++ d :: post) values)
        = validateVariables rxTest (pre ++ d :: post) values := rfl
    rw [this]
    exact ih (fun w hw => hok w (List.mem_cons_of_mem u hw))

/-- C4: variable validation is fail-fast in declaration order: when every
earlier-declared variable checks out and the check of variable d fails
with error e, the whole validation returns exactly that error whatever is
declared after d (so no later check runs), and the error names d. -/
theorem validateVariables_failfast (rxTest : String → String → Bool)
    (pre post : List Variable) (d : Variable) (values : String → Option JSValue)
    (e : String)
    (hpre : ∀ u ∈ pre, checkVariable rxTest values u = Except.ok ())
    (hd : checkVariable rxTest values d = Except.error e) :
    validateVariables rxTest (pre ++ d :: post) values = Except.error e
    ∧ occursIn d.name.data e.data :=
  ⟨validateVariables_error_of_first rxTest d post values e hd pre hpre,
   checkVariable_error_names rxTest values d hd⟩

/-- Witness for C4: with variable a required-but-missing declared before
variable b (present with an invalid type), validation reports the
missing-a error; b is never reached. -/
theorem validateVariables_failfast_witness :
    validateVariables rxTrue [varA, varB] valuesOnlyB
      = Except.error ("Required variable \x27a\x27 is missing")
    ∧ occursIn ("a").data ("Required variable \x27a\x27 is missing").data := by
  have h := validateVariables_failfast rxTrue [] [varB] varA valuesOnlyB
    ("Required variable \x27a\x27 is missing") (by simp) (by rfl)
  exact ⟨h.1, h.2⟩

/-! ## Rendering is a no-op on fully resolved text (claim C9) -/

theorem replacePass_no_placeholder (frags : String → Option String) :
    ∀ s : List Char, containsPlaceholder s = false → replacePass frags s = (s, false) := by
  intro s
  induction s with
  | nil => intro _; exact replacePass_nil frags
  | cons c cs ih =>
    intro h
    simp only [containsPlaceholder, Bool.or_eq_false_iff] at h
    obtain ⟨h1, h2⟩ := h
    have hm : matchPlaceholder (c :: cs) = none := by
      cases hmm : matchPlaceholder (c :: cs)
      · rfl
      · rw [hmm] at h1; simp at h1
    rw [replacePass_cons_nomatch frags hm, ih h2]

theorem substituteVariables_no_placeholder (vars : String → Option String) (b : Bool) :
    ∀ s : List Char, containsPlaceholder s = false →
      substituteVariables vars b s = Except.ok s := by
  intro s
  induction s with
  | nil => intro _; exact substituteVariables_nil vars b
  | cons c cs ih =>
    intro h
    simp only [containsPlaceholder, Bool.or_eq_false_iff] at h
    obtain ⟨h1, h2⟩ := h
    have hm : matchPlaceholder (c :: cs) = none := by
      cases hmm : matchPlaceholder (c :: cs)
      · rfl
      · rw [hmm] at h1; simp at h1
    rw [substituteVariables_cons_nomatch vars b hm, ih h2]

theorem fragGo_succ_stop (frags : String → Option String) (fuel : Nat) (s : List Char)
    (h : (replacePass frags s).2 = false) :
    fragGo frags (fuel + 1) s = ((replacePass frags s).1, 1) := by
  simp [fragGo, h]

theorem substituteFragments_no_placeholder (frags : String → Option String)
    (t : String) (h : containsPlaceholder t.data = false) :
    substituteFragments frags t = Except.ok t := by
  have h1 : replacePass frags t.data = (t.data, false) :=
    replacePass_no_placeholder frags t.data h
  have hg : fragGo frags maxDepth t.data = (t.data, 1) := by
    rw [show maxDepth = 9 + 1 from rfl, fragGo_succ_stop frags 9 t.data (by rw [h1]), h1]
  unfold substituteFragments
  rw [hg]
  norm_num [maxDepth]

/-- C9: rendering a string containing no placeholder tokens through the
engine with empty fragment and variable maps (undefined tolerance off)
returns the input unchanged and raises no error. -/
theorem render_idempotent_on_resolved (t : String)
    (h : containsPlaceholder t.data = false) :
    render emptyMap emptyMap false t = Except.ok t := by
  unfold render
  simp only [substituteFragments_no_placeholder emptyMap t h,
    substituteVariables_no_placeholder emptyMap false t.data h]

/-- Witness for C9: a fully resolved greeting renders to itself. -/
theorem render_idempotent_on_resolved_witness :
    render emptyMap emptyMap false ("hello world") = Except.ok ("hello world") :=
  render_idempotent_on_resolved ("hello world") (by decide)

/-! ## The fragment pass cap (claim C1): matcher structure lemmas -/

theorem takeWhile_dropWhile_append {p : Char → Bool} :
    ∀ (a : List Char) (d : Char) (b : List Char), a.all p = true → p d = false →
      ((a ++ d :: b).takeWhile p = a ∧ (a ++ d :: b).dropWhile p = d :: b) := by
  intro a
  induction a with
  | nil =>
    intro d b _ hd
    simp [List.takeWhile, List.dropWhile, hd]
  | cons x a ih =>
    intro d b ha hd
    simp only [List.all_cons, Bool.and_eq_true] at ha
    obtain ⟨hx, ha⟩ := ha
    have := ih d b ha hd
    simp [List.takeWhile, List.dropWhile, hx, this.1, this.2]

theorem matchPlaceholder_at_placeholder (n : String) (r : List Char)
    (hv : validIdent n) :
    matchPlaceholder (placeholderText n ++ r) = some (n, r) := by
  obtain ⟨c, cs, hdata, hstart, hall⟩ := hv
  have hshape : placeholderText n ++ r
      = lbrace :: lbrace :: c :: (cs ++ rbrace :: rbrace :: r) := by
    simp [placeholderText, hdata]
  have hdw := takeWhile_dropWhile_append cs rbrace (rbrace :: r) hall (by decide)
  rw [hshape]
  simp only [matchPlaceholder, hdw.1, hdw.2, hstart]
  norm_num
  exact String.ext hdata.symm

theorem all_takeWhile_self (p : Char → Bool) (l : List Char) :
    (l.takeWhile p).all p = true := by
  rw [List.all_eq_true]
  intro x hx
  exact List.mem_takeWhile_imp hx

theorem matchPlaceholder_sound {s : List Char} {n : String} {rest : List Char}
    (h : matchPlaceholder s = some (n, rest)) :
    s = placeholderText n ++ rest ∧ validIdent n := by
  match s with
  | [] => simp [matchPlaceholder] at h
  | [a] => simp [matchPlaceholder] at h
  | [a, b] => simp [matchPlaceholder] at h
  | a :: b :: c :: cs =>
    simp only [matchPlaceholder] at h
    split at h
    · rename_i hguard
      simp only [Bool.and_eq_true, decide_eq_true_eq] at hguard
      obtain ⟨⟨ha, hb⟩, hc⟩ := hguard
      split at h
      · rename_i d e rest2 hdrop
        split at h
        · rename_i hde
          simp only [Bool.and_eq_true, decide_eq_true_eq] at hde
          obtain ⟨hd, he⟩ := hde
          simp only [Option.some.injEq, Prod.mk.injEq] at h
          obtain ⟨hn, hr⟩ := h
          subst ha; subst hb; subst hd; subst he; subst hn; subst hr
          have hsplit : cs.takeWhile isIdentChar ++ cs.dropWhile isIdentChar = cs :=
            List.takeWhile_append_dropWhile isIdentChar cs
          rw [hdrop] at hsplit
          constructor
          · simp only [placeholderText]
            rw [← hsplit]
            simp
            exact (takeWhile_dropWhile_append (cs.takeWhile isIdentChar) rbrace
              (rbrace :: rest2) (all_takeWhile_self isIdentChar cs) (by decide)).1.symm
          · exact ⟨c, cs.takeWhile isIdentChar, rfl, hc, all_takeWhile_self isIdentChar cs⟩
        · exact absurd h (by simp)
      · exact absurd h (by simp)
    · exact absurd h (by simp)

theorem matchPlaceholder_rest_lt {s : List Char} {n : String} {rest : List Char}
    (h : matchPlaceholder s = some (n, rest)) : rest.length < s.length := by
  obtain ⟨hs, -⟩ := matchPlaceholder_sound h
  rw [hs]
  simp [placeholderText]
  omega

theorem isIdentChar_of_isIdentStart {c : Char} (h : isIdentStart c = true) :
    isIdentChar c = true := by
  simp only [isIdentStart, Bool.or_eq_true] at h
  rcases h with h | h <;> simp [isIdentChar, h]

theorem validIdent_all_ident {n : String} (hv : validIdent n) :
    n.data.all isIdentChar = true := by
  obtain ⟨c, cs, hdata, hstart, hall⟩ := hv
  rw [hdata]
  simp [List.all_cons, isIdentChar_of_isIdentStart hstart, hall]

theorem count_lbrace_ident_zero {l : List Char} (h : l.all isIdentChar = true) :
    List.count lbrace l = 0 := by
  rw [List.count_eq_zero]
  intro hm
  rw [List.all_eq_true] at h
  exact absurd (h lbrace hm) (by decide)

theorem placeholder_getLast (n : String) :
    (placeholderText n).getLast? = some rbrace := by
  simp only [placeholderText]
  rw [show lbrace :: lbrace :: (n.data ++ [rbrace, rbrace])
      = (lbrace :: lbrace :: (n.data ++ [rbrace])) ++ [rbrace] by simp]
  exact List.getLast?_concat _

theorem placeholder_no_overlap {n n2 : String} {rest r l : List Char}
    (hv2 : validIdent n2) (hl : l ≠ [])
    (heq : placeholderText n2 ++ rest = l ++ (placeholderText n ++ r)) :
    ∃ l2, rest = l2 ++ (placeholderText n ++ r) := by
  rcases List.append_eq_append_iff.mp heq with ⟨a, hla, hrest⟩ | ⟨u, hspan, hpr⟩
  · exact ⟨a, hrest⟩
  · match u with
    | [] =>
      refine ⟨[], ?_⟩
      simpa using hpr.symm
    | [x] =>
      exfalso
      have hx : x = lbrace := by
        have hh := congrArg List.head? hpr
        simp [placeholderText] at hh
        exact hh.symm
      subst hx
      have hlast := congrArg List.getLast? hspan
      rw [placeholder_getLast n2, List.getLast?_concat] at hlast
      exact absurd (Option.some.inj hlast) (by decide)
    | x :: y :: u2 =>
      exfalso
      have hpr2 : placeholderText n ++ r = x :: y :: (u2 ++ rest) := by
        simpa using hpr
      simp only [placeholderText, List.cons_append, List.cons.injEq] at hpr2
      obtain ⟨hx, hy, -⟩ := hpr2
      subst hx; subst hy
      cases l with
      | nil => exact hl rfl
      | cons hd l1 =>
        have hspan2 : placeholderText n2 = hd :: (l1 ++ lbrace :: lbrace :: u2) := by
          simpa using hspan
        simp only [placeholderText, List.cons.injEq] at hspan2
        obtain ⟨-, htail⟩ := hspan2
        have hcnt := congrArg (List.count lbrace) htail
        simp [List.count_cons, List.count_append,
          count_lbrace_ident_zero (validIdent_all_ident hv2),
          show (lbrace == lbrace) = true from by decide,
          show (rbrace == lbrace) = false from by decide] at hcnt
        omega

theorem occursIn_trans {pat mid s : List Char} (h1 : occursIn pat mid)
    (h2 : occursIn mid s) : occursIn pat s := by
  obtain ⟨a, b, hab⟩ := h1
  obtain ⟨c, d, hcd⟩ := h2
  exact ⟨c ++ a, b ++ d, by simp [hcd, hab]⟩

theorem occursIn_nil_elim {n : String} (h : occursIn (placeholderText n) []) : False := by
  obtain ⟨l, r, hlr⟩ := h
  have := congrArg List.length hlr
  simp [placeholderText] at this
  omega

theorem replacePass_more_of_occurs (frags : String → Option String) {n : String}
    (hv : validIdent n) (hmap : (frags n).isSome = true) :
    ∀ s : List Char, occursIn (placeholderText n) s → (replacePass frags s).2 = true := by
  have main : ∀ (len : Nat) (s : List Char), s.length ≤ len →
      occursIn (placeholderText n) s → (replacePass frags s).2 = true := by
    intro len
    induction len with
    | zero =>
      intro s hlen hocc
      obtain ⟨l, r, hlr⟩ := hocc
      have h0 : s.length = 0 := Nat.le_zero.mp hlen
      rw [hlr] at h0
      simp [placeholderText] at h0
    | succ len ih =>
      intro s hlen hocc
      cases s with
      | nil => exact absurd hocc occursIn_nil_elim
      | cons c cs =>
        cases hm : matchPlaceholder (c :: cs) with
        | none =>
          obtain ⟨l, r, hlr⟩ := hocc
          cases l with
          | nil =>
            exfalso
            simp only [List.nil_append] at hlr
            rw [hlr, matchPlaceholder_at_placeholder n r hv] at hm
            cases hm
          | cons x l1 =>
            rw [replacePass_cons_nomatch frags hm]
            simp only [List.cons_append] at hlr
            injection hlr with h1 h2
            refine ih cs ?_ ⟨l1, r, h2⟩
            simp only [List.length_cons] at hlen
            omega
        | some val =>
          obtain ⟨n2, rest⟩ := val
          obtain ⟨hrec, hv2⟩ := matchPlaceholder_sound hm
          cases hf : frags n2 with
          | some repl =>
            rw [replacePass_cons_mapped frags hm hf]
          | none =>
            rw [replacePass_cons_unmapped frags hm hf]
            obtain ⟨l, r, hlr⟩ := hocc
            cases l with
            | nil =>
              exfalso
              simp only [List.nil_append] at hlr
              rw [hlr, matchPlaceholder_at_placeholder n r hv] at hm
              injection hm with hm2
              injection hm2 with ha hb
              rw [← ha] at hf
              rw [hf] at hmap
              simp at hmap
            | cons x l1 =>
              have heq : placeholderText n2 ++ rest
                  = (x :: l1) ++ (placeholderText n ++ r) := by
                rw [← hrec, hlr]
                simp [List.append_assoc]
              obtain ⟨l2, hrest⟩ := placeholder_no_overlap hv2 (by simp) heq
              refine ih rest ?_ ⟨l2, r, by rw [hrest]; simp [List.append_assoc]⟩
              have hlt := matchPlaceholder_rest_lt hm
              simp only [List.length_cons] at hlt hlen
              omega
  intro s hocc
  exact main s.length s le_rfl hocc

theorem replacePass_body_occurs (frags : String → Option String) {n body : String}
    (hv : validIdent n) (hb : frags n = some body) :
    ∀ s : List Char, occursIn (placeholderText n) s →
      occursIn body.data (replacePass frags s).1 := by
  have main : ∀ (len : Nat) (s : List Char), s.length ≤ len →
      occursIn (placeholderText n) s → occursIn body.data (replacePass frags s).1 := by
    intro len
    induction len with
    | zero =>
      intro s hlen hocc
      obtain ⟨l, r, hlr⟩ := hocc
      have h0 : s.length = 0 := Nat.le_zero.mp hlen
      rw [hlr] at h0
      simp [placeholderText] at h0
    | succ len ih =>
      intro s hlen hocc
      cases s with
      | nil => exact absurd hocc occursIn_nil_elim
      | cons c cs =>
        cases hm : matchPlaceholder (c :: cs) with
        | none =>
          obtain ⟨l, r, hlr⟩ := hocc
          cases l with
          | nil =>
            exfalso
            simp only [List.nil_append] at hlr
            rw [hlr, matchPlaceholder_at_placeholder n r hv] at hm
            cases hm
          | cons x l1 =>
            rw [replacePass_cons_nomatch frags hm]
            simp only [List.cons_append] at hlr
            injection hlr with h1 h2
            obtain ⟨a, b, hab⟩ := ih cs
              (by simp only [List.length_cons] at hlen; omega) ⟨l1, r, h2⟩
            exact ⟨c :: a, b, by simp [hab]⟩
        | some val =>
          obtain ⟨n2, rest⟩ := val
          obtain ⟨hrec, hv2⟩ := matchPlaceholder_sound hm
          obtain ⟨l, r, hlr⟩ := hocc
          cases l with
          | nil =>
            simp only [List.nil_append] at hlr
            have hm2 := hm
            rw [hlr, matchPlaceholder_at_placeholder n r hv] at hm2
            injection hm2 with hm3
            injection hm3 with ha hb2
            rw [replacePass_cons_mapped frags hm (by rw [← ha]; exact hb)]
            exact ⟨[], (replacePass frags rest).1, by simp⟩
          | cons x l1 =>
            have heq : placeholderText n2 ++ rest
                = (x :: l1) ++ (placeholderText n ++ r) := by
              rw [← hrec, hlr]
              simp [List.append_assoc]
            obtain ⟨l2, hrest⟩ := placeholder_no_overlap hv2 (by simp) heq
            have hlt := matchPlaceholder_rest_lt hm
            obtain ⟨a, b, hab⟩ := ih rest
              (by simp only [List.length_cons] at hlt hlen; omega)
              ⟨l2, r, by rw [hrest]; simp [List.append_assoc]⟩
            cases hf : frags n2 with
            | some repl =>
              rw [replacePass_cons_mapped frags hm hf]
              exact ⟨repl.data ++ a, b, by simp [hab]⟩
            | none =>
              rw [replacePass_cons_unmapped frags hm hf]
              exact ⟨lbrace :: lbrace :: (n2.data ++ rbrace :: rbrace :: a), b,
                by simp [hab]⟩
  intro s hocc
  exact main s.length s le_rfl hocc

theorem cyc_invariant_step (frags : String → Option String) (C : List String)
    (hC : ∀ m ∈ C, validIdent m ∧ ∃ body, frags m = some body ∧
      ∃ m2, m2 ∈ C ∧ occursIn (placeholderText m2) body.data) :
    ∀ s : List Char, (∃ m ∈ C, occursIn (placeholderText m) s) →
      ((replacePass frags s).2 = true
        ∧ ∃ m ∈ C, occursIn (placeholderText m) (replacePass frags s).1) := by
  rintro s ⟨m, hm, hocc⟩
  obtain ⟨hv, body, hb, m2, hm2, hocc2⟩ := hC m hm
  constructor
  · exact replacePass_more_of_occurs frags hv (by rw [hb]; rfl) s hocc
  · have hbody := replacePass_body_occurs frags hv hb s hocc
    exact ⟨m2, hm2, occursIn_trans hocc2 hbody⟩

theorem fragGo_cyc (frags : String → Option String) (C : List String)
    (hC : ∀ m ∈ C, validIdent m ∧ ∃ body, frags m = some body ∧
      ∃ m2, m2 ∈ C ∧ occursIn (placeholderText m2) body.data) :
    ∀ (fuel : Nat) (s : List Char), (∃ m ∈ C, occursIn (placeholderText m) s) →
      (fragGo frags fuel s).2 = fuel := by
  intro fuel
  induction fuel with
  | zero => intro s _; rfl
  | succ fuel ih =>
    intro s hinv
    obtain ⟨hmore, hinv2⟩ := cyc_invariant_step frags C hC s hinv
    simp only [fragGo, hmore, if_true]
    rw [ih _ hinv2]

theorem passResult_cyc (frags : String → Option String) (C : List String)
    (hC : ∀ m ∈ C, validIdent m ∧ ∃ body, frags m = some body ∧
      ∃ m2, m2 ∈ C ∧ occursIn (placeholderText m2) body.data) :
    ∀ (k : Nat) (s : List Char), (∃ m ∈ C, occursIn (placeholderText m) s) →
      ∃ m ∈ C, occursIn (placeholderText m) (passResult frags s k) := by
  intro k
  induction k with
  | zero => intro s h; exact h
  | succ k ih =>
    intro s h
    exact (cyc_invariant_step frags C hC _ (ih s h)).2

theorem passResult_shift (frags : String → Option String) (s : List Char) :
    ∀ k, passResult frags s (k + 1) = passResult frags ((replacePass frags s).1) k := by
  intro k
  induction k with
  | zero => rfl
  | succ k ih =>
    show (replacePass frags (passResult frags s (k + 1))).1 = _
    rw [ih]
    rfl

theorem fragGo_le_of_pass_false (frags : String → Option String) :
    ∀ (fuel : Nat) (s : List Char) (k : Nat),
      (replacePass frags (passResult frags s k)).2 = false →
      (fragGo frags fuel s).2 ≤ k + 1 := by
  intro fuel
  induction fuel with
  | zero =>
    intro s k _
    simp [fragGo]
  | succ fuel ih =>
    intro s k hk
    by_cases hmore : (replacePass frags s).2 = true
    · cases k with
      | zero =>
        exfalso
        rw [show passResult frags s 0 = s from rfl] at hk
        rw [hk] at hmore
        cases hmore
      | succ k2 =>
        simp only [fragGo, hmore, if_true]
        have hk2 : (replacePass frags
            (passResult frags ((replacePass frags s).1) k2)).2 = false := by
          rw [← passResult_shift frags s k2]
          exact hk
        have := ih ((replacePass frags s).1) k2 hk2
        omega
    · have hmore2 : (replacePass frags s).2 = false := by
        cases h2 : (replacePass frags s).2
        · rfl
        · exact absurd h2 hmore
      simp only [fragGo, hmore2, Bool.false_eq_true, if_false]
      omega

/-- C1: the fragment phase of render errors exactly at the pass cap.
First conjunct: if some pass strictly before the cap (pass k+1 with
k+1 at most 9) makes no replacement, substituteFragments returns
successfully, with no depth error.  Second conjunct: when the template
mentions a placeholder of a fragment belonging to a self-sustaining cycle
C (every fragment of C exists in the map and its body mentions a
placeholder of a fragment of C, which makes some fragment include itself
directly or transitively), substituteFragments raises the depth/cycle
TemplateError after running exactly maxDepth (ten) passes, every one of
which performed a replacement: not earlier, not later. -/
theorem substituteFragments_pass_cap (frags : String → Option String) (t : String) :
    ((∃ k, k < 9 ∧ (replacePass frags (passResult frags t.data k)).2 = false) →
      ∃ out, substituteFragments frags t = Except.ok out)
    ∧ (∀ C : List String,
      (∀ m ∈ C, validIdent m ∧ ∃ body, frags m = some body ∧
        ∃ m2, m2 ∈ C ∧ occursIn (placeholderText m2) body.data) →
      (∃ m ∈ C, occursIn (placeholderText m) t.data) →
      substituteFragments frags t = Except.error depthErrorMsg
      ∧ (fragGo frags maxDepth t.data).2 = maxDepth
      ∧ ∀ k, k < maxDepth → (replacePass frags (passResult frags t.data k)).2 = true) := by
  constructor
  · rintro ⟨k, hk9, hkf⟩
    have hle := fragGo_le_of_pass_false frags maxDepth t.data k hkf
    have hmd : maxDepth = 10 := rfl
    unfold substituteFragments
    rw [if_neg (by omega)]
    exact ⟨_, rfl⟩
  · intro C hC hocc
    have hg : (fragGo frags maxDepth t.data).2 = maxDepth :=
      fragGo_cyc frags C hC maxDepth t.data hocc
    refine ⟨?_, hg, ?_⟩
    · unfold substituteFragments
      rw [if_pos (by simp [hg])]
    · intro k _
      exact (cyc_invariant_step frags C hC _ (passResult_cyc frags C hC k t.data hocc)).1

/-- Witness for C1: a fragment-free template renders with no depth error,
while the directly self-including fragment map (a bound to a text that
mentions a again) errors when the template mentions a. -/
theorem substituteFragments_pass_cap_witness :
    (∃ out, substituteFragments fragsA ("plain text") = Except.ok out)
    ∧ substituteFragments fragsCyc ("\x7b\x7ba\x7d\x7d")
        = Except.error depthErrorMsg := by
  constructor
  · refine (substituteFragments_pass_cap fragsA ("plain text")).1 ⟨0, by omega, ?_⟩
    rw [show passResult fragsA ("plain text").data 0 = ("plain text").data from rfl]
    rw [replacePass_no_placeholder fragsA _ (by decide)]
  · refine ((substituteFragments_pass_cap fragsCyc ("\x7b\x7ba\x7d\x7d")).2
      ["a"] ?_ ?_).1
    · intro m hm
      have hma : m = "a" := by simpa using hm
      subst hma
      exact ⟨⟨'a', [], rfl, by decide, by decide⟩, "\x7b\x7ba\x7d\x7d", rfl,
        "a", by simp, ⟨[], [], by decide⟩⟩
    · exact ⟨"a", by simp, ⟨[], [], by decide⟩⟩

end PromptPack
